import Mathlib

/-!
Verification of `moko256_systemd_stdio_logger`: a process-wide logging
backend that filters log records by per-module verbosity rules and prints
accepted records to standard output with an RFC-5424-style severity code.

The Rust source (`src/lib.rs`) is shallowly embedded below:
* `Level` / `LevelFilter` are the `log` crate's enumerations with their
  derived order (by declaration rank);
* `LoggerModuleFilterKey`, `most_verbose_level`, `AppLogger.enabled`,
  `AppLogger.level_to_severity_rfc5424` and `AppLogger.log` mirror the
  corresponding Rust items;
* `init` is modelled as an explicit state transition over `LogState`,
  capturing `log::set_max_level` followed by `OnceLock::get_or_init` and
  `log::set_logger`;
* Rust `str::starts_with` is embedded as character-sequence prefix;
* the side effect of `println!` is modelled as the list of emitted lines.
-/

namespace SystemdStdioLogger

/-- The `log` crate's `Level`: severity of a record, most severe first.
Its derived order ranks `Error` lowest and `Trace` highest. -/
inductive Level where
  | Error
  | Warn
  | Info
  | Debug
  | Trace
deriving DecidableEq, Repr

/-- The `log` crate's `LevelFilter`: a `Level` or the `Off` sentinel.
Its derived order ranks `Off` lowest and `Trace` highest. -/
inductive LevelFilter where
  | Off
  | Error
  | Warn
  | Info
  | Debug
  | Trace
deriving DecidableEq, Repr

/-- Discriminant rank of `Level`, matching the `log` crate's `usize` repr. -/
def Level.rank : Level → Nat
  | .Error => 1
  | .Warn => 2
  | .Info => 3
  | .Debug => 4
  | .Trace => 5

/-- Discriminant rank of `LevelFilter` (`Off = 0`, then as `Level`). -/
def LevelFilter.rank : LevelFilter → Nat
  | .Off => 0
  | .Error => 1
  | .Warn => 2
  | .Info => 3
  | .Debug => 4
  | .Trace => 5

/-- The `log` crate's `Level::to_level_filter`. -/
def Level.to_level_filter : Level → LevelFilter
  | .Error => .Error
  | .Warn => .Warn
  | .Info => .Info
  | .Debug => .Debug
  | .Trace => .Trace

/-- The derived `<=` on `LevelFilter` (comparison of declaration ranks). -/
def LevelFilter.le (a b : LevelFilter) : Bool :=
  decide (a.rank ≤ b.rank)

/-- The derived `<` on `LevelFilter` (comparison of declaration ranks). -/
def LevelFilter.lt (a b : LevelFilter) : Bool :=
  decide (a.rank < b.rank)

/-- Rust `str::starts_with`: the pattern's character sequence is a prefix
of the string's character sequence. -/
def starts_with (s pat : String) : Bool :=
  pat.data.isPrefixOf s.data

/-- `LoggerModuleFilterKey` from `src/lib.rs`: a module-scoped rule
(target-name prefix plus maximum level) or a catch-all default rule. -/
inductive LoggerModuleFilterKey where
  | Module (name : String) (level : LevelFilter)
  | Default (level : LevelFilter)
deriving DecidableEq, Repr

/-- The max-level field of a rule (the payload of either variant). -/
def ruleLevel : LoggerModuleFilterKey → LevelFilter
  | .Module _ level => level
  | .Default level => level

/-- Accumulator loop of `most_verbose_level`: keeps the loosest level
seen so far, starting from the caller's accumulator. -/
def mvlGo : List LoggerModuleFilterKey → LevelFilter → LevelFilter
  | [], acc => acc
  | k :: rest, acc =>
    match k with
    | .Module _ level | .Default level =>
      mvlGo rest (if acc.lt level then level else acc)

/-- `most_verbose_level` from `src/lib.rs`: scan the rules, keeping the
loosest (maximum-rank) level, starting from `LevelFilter::Off`. -/
def most_verbose_level (module_max_levels : List LoggerModuleFilterKey) : LevelFilter :=
  mvlGo module_max_levels .Off

namespace AppLogger

/-- Loop body of `AppLogger::enabled` from `src/lib.rs`: scan the rules
carrying the remembered default level (`default_level` in the source).
A matching module rule returns immediately; a default rule is remembered
only if none was remembered yet; at the end the remembered default (if
any) decides, otherwise the record is denied. -/
def enabledGo (target : String) (level : Level) :
    List LoggerModuleFilterKey → Option LevelFilter → Bool
  | [], default_level =>
    match default_level with
    | some d => (level.to_level_filter).le d
    | none => false
  | .Module name l :: rest, default_level =>
    if starts_with target name then
      (level.to_level_filter).le l
    else
      enabledGo target level rest default_level
  | .Default l :: rest, default_level =>
    enabledGo target level rest
      (match default_level with
       | none => some l
       | some d => some d)

/-- `AppLogger::enabled` from `src/lib.rs`, as a function of the logger's
rule list and the record metadata's target and level. -/
def enabled (module_max_levels : List LoggerModuleFilterKey)
    (target : String) (level : Level) : Bool :=
  enabledGo target level module_max_levels none

/-- `AppLogger::level_to_severity_rfc5424` from `src/lib.rs`. -/
def level_to_severity_rfc5424 : Level → Nat
  | .Trace => 7
  | .Debug => 7
  | .Info => 6
  | .Warn => 4
  | .Error => 3

end AppLogger

/-- A log record as consumed by `AppLogger::log`: target, level and the
already-formatted message (`record.args()`). -/
structure Record where
  target : String
  level : Level
  args : String
deriving DecidableEq, Repr

/-- `AppLogger::log` from `src/lib.rs`, with the `println!` side effect
modelled as the list of lines emitted to standard output by the call. -/
def AppLogger.log (module_max_levels : List LoggerModuleFilterKey)
    (record : Record) : List String :=
  if AppLogger.enabled module_max_levels record.target record.level then
    ["<" ++ Nat.repr (AppLogger.level_to_severity_rfc5424 record.level) ++ ">"
      ++ record.target ++ ": " ++ record.args]
  else
    []

/-- The `log` crate's `SetLoggerError` (opaque unit-like error value
returned by `log::set_logger` when a logger is already installed). -/
structure SetLoggerError where
deriving DecidableEq, Repr

/-- The process-wide logging state touched by `init`: the maximum-severity
threshold held by the `log` crate (`set_max_level`/`max_level`) and the
installed logger's rule list (`APP_LOGGER` once-cell plus the `log`
crate's registered logger, which move in lockstep in this crate). -/
structure LogState where
  max_level : LevelFilter
  app_logger : Option (List LoggerModuleFilterKey)
deriving DecidableEq, Repr

/-- `init` from `src/lib.rs` as a state transition. It first calls
`set_max_level (most_verbose_level rules)` unconditionally, then
`set_logger (APP_LOGGER.get_or_init ...)`: if a logger is already
installed the call fails with `SetLoggerError` and the installed logger
is kept, otherwise the new logger is installed. -/
def init (module_max_levels : List LoggerModuleFilterKey) (s : LogState) :
    Except SetLoggerError Unit × LogState :=
  let s₁ : LogState := { s with max_level := most_verbose_level module_max_levels }
  match s₁.app_logger with
  | some _ => (.error ⟨⟩, s₁)
  | none => (.ok (), { s₁ with app_logger := some module_max_levels })

/-- Whether a rule is a module rule whose prefix matches the target. -/
def matchesModule (target : String) : LoggerModuleFilterKey → Bool
  | .Module name _ => starts_with target name
  | .Default _ => false

/-- Whether a rule is a default rule. -/
def isDefaultRule : LoggerModuleFilterKey → Bool
  | .Default _ => true
  | .Module _ _ => false

/-- Specification-side restatement of the `enabled` algorithm (spec 4.2):
the first module rule in list order whose prefix matches the target
decides; otherwise the first default rule in list order decides;
otherwise the record is denied. -/
def specEnabled (rules : List LoggerModuleFilterKey)
    (target : String) (level : Level) : Bool :=
  match rules.find? (matchesModule target) with
  | some r => (level.to_level_filter).le (ruleLevel r)
  | none =>
    match rules.find? isDefaultRule with
    | some r => (level.to_level_filter).le (ruleLevel r)
    | none => false

/-! Helper lemmas about levels and `most_verbose_level`. -/

theorem le_iff (a b : LevelFilter) : a.le b = true ↔ a.rank ≤ b.rank := by
  simp [LevelFilter.le]

theorem lt_iff (a b : LevelFilter) : a.lt b = true ↔ a.rank < b.rank := by
  simp [LevelFilter.lt]

theorem rank_eq_zero {a : LevelFilter} (h : a.rank = 0) : a = .Off := by
  cases a <;> simp_all [LevelFilter.rank]

theorem mvlGo_cons (k : LoggerModuleFilterKey) (rest : List LoggerModuleFilterKey)
    (acc : LevelFilter) :
    mvlGo (k :: rest) acc = mvlGo rest (if acc.lt (ruleLevel k) then ruleLevel k else acc) := by
  cases k <;> rfl

theorem acc_step_le (acc level : LevelFilter) :
    acc.rank ≤ (if acc.lt level then level else acc).rank := by
  by_cases h : acc.lt level = true
  · simp only [h, if_true]
    exact Nat.le_of_lt ((lt_iff _ _).1 h)
  · simp only [h, if_false]
    exact Nat.le_refl _

theorem level_step_le (acc level : LevelFilter) :
    level.rank ≤ (if acc.lt level then level else acc).rank := by
  by_cases h : acc.lt level = true
  · simp only [h, if_true]
    exact Nat.le_refl _
  · simp only [h, if_false]
    exact Nat.le_of_not_lt (fun hc => h ((lt_iff _ _).2 hc))

theorem mvlGo_acc_le (rules : List LoggerModuleFilterKey) :
    ∀ acc : LevelFilter, acc.rank ≤ (mvlGo rules acc).rank := by
  induction rules with
  | nil => intro acc; exact Nat.le_refl _
  | cons k rest ih =>
    intro acc
    rw [mvlGo_cons]
    exact Nat.le_trans (acc_step_le acc (ruleLevel k)) (ih _)

theorem mvlGo_mem_le (rules : List LoggerModuleFilterKey) (acc : LevelFilter)
    (r : LoggerModuleFilterKey) (hr : r ∈ rules) :
    (ruleLevel r).rank ≤ (mvlGo rules acc).rank := by
  induction rules generalizing acc with
  | nil => cases hr
  | cons k rest ih =>
    rw [mvlGo_cons]
    rcases List.mem_cons.1 hr with h | h
    · subst h
      exact Nat.le_trans (level_step_le acc (ruleLevel r)) (mvlGo_acc_le rest _)
    · exact ih _ h

theorem mvlGo_cases (rules : List LoggerModuleFilterKey) :
    ∀ acc : LevelFilter,
      mvlGo rules acc = acc ∨ ∃ r ∈ rules, mvlGo rules acc = ruleLevel r := by
  induction rules with
  | nil => intro acc; left; rfl
  | cons k rest ih =>
    intro acc
    rw [mvlGo_cons]
    rcases ih (if acc.lt (ruleLevel k) then ruleLevel k else acc) with h | ⟨r, hr, he⟩
    · by_cases hc : acc.lt (ruleLevel k) = true
      · right
        refine ⟨k, List.mem_cons_self _ _, ?_⟩
        rw [h, if_pos hc]
      · left
        rw [h, if_neg hc]
    · right
      exact ⟨r, List.mem_cons_of_mem _ hr, he⟩

/-! Helper lemmas about the `enabled` scan. -/

theorem starts_with_empty (s : String) : starts_with s "" = true := by
  simp [starts_with, List.isPrefixOf]

theorem enabledGo_eq (target : String) (level : Level)
    (rules : List LoggerModuleFilterKey) :
    ∀ acc : Option LevelFilter,
      AppLogger.enabledGo target level rules acc =
        match rules.find? (matchesModule target) with
        | some r => (level.to_level_filter).le (ruleLevel r)
        | none =>
          match acc with
          | some d => (level.to_level_filter).le d
          | none =>
            match rules.find? isDefaultRule with
            | some r => (level.to_level_filter).le (ruleLevel r)
            | none => false := by
  induction rules with
  | nil =>
    intro acc
    cases acc <;> simp [AppLogger.enabledGo]
  | cons k rest ih =>
    intro acc
    cases k with
    | Module name l =>
      by_cases hs : starts_with target name = true
      · rw [List.find?_cons_of_pos _ (by simpa [matchesModule] using hs)]
        simp [AppLogger.enabledGo, hs, ruleLevel]
      · rw [List.find?_cons_of_neg _ (by simpa [matchesModule] using hs),
          List.find?_cons_of_neg _ (by simp [isDefaultRule])]
        have hs' : starts_with target name = false := by
          simpa using hs
        simp only [AppLogger.enabledGo, hs', Bool.false_eq_true, if_false]
        exact ih acc
    | Default l =>
      rw [List.find?_cons_of_neg _ (by simp [matchesModule]),
        List.find?_cons_of_pos _ (by simp [isDefaultRule])]
      cases acc with
      | none =>
        simp only [AppLogger.enabledGo]
        rw [ih (some l)]
        rfl
      | some d =>
        simp only [AppLogger.enabledGo]
        rw [ih (some d)]

theorem enabledGo_first_module (target : String) (level : Level)
    (name : String) (l : LevelFilter) (rules₂ : List LoggerModuleFilterKey)
    (hs : starts_with target name = true) :
    ∀ (rules₁ : List LoggerModuleFilterKey) (acc : Option LevelFilter),
      (∀ r ∈ rules₁, matchesModule target r = false) →
      AppLogger.enabledGo target level (rules₁ ++ .Module name l :: rules₂) acc =
        (level.to_level_filter).le l := by
  intro rules₁
  induction rules₁ with
  | nil =>
    intro acc _
    simp [AppLogger.enabledGo, hs]
  | cons k rest ih =>
    intro acc hnone
    have hk : matchesModule target k = false := hnone k (List.mem_cons_self _ _)
    have hrest : ∀ r ∈ rest, matchesModule target r = false :=
      fun r hr => hnone r (List.mem_cons_of_mem _ hr)
    cases k with
    | Module n₁ l₁ =>
      have hs₁ : starts_with target n₁ = false := by simpa [matchesModule] using hk
      simp only [List.cons_append, AppLogger.enabledGo, hs₁, Bool.false_eq_true, if_false]
      exact ih acc hrest
    | Default l₁ =>
      simp only [List.cons_append, AppLogger.enabledGo]
      exact ih _ hrest

theorem enabledGo_true_exists (target : String) (level : Level)
    (rules : List LoggerModuleFilterKey) :
    ∀ acc : Option LevelFilter,
      AppLogger.enabledGo target level rules acc = true →
      (∃ r ∈ rules, (level.to_level_filter).le (ruleLevel r) = true) ∨
      (∃ d, acc = some d ∧ (level.to_level_filter).le d = true) := by
  induction rules with
  | nil =>
    intro acc h
    cases acc with
    | none => simp [AppLogger.enabledGo] at h
    | some d =>
      right
      exact ⟨d, rfl, by simpa [AppLogger.enabledGo] using h⟩
  | cons k rest ih =>
    intro acc h
    cases k with
    | Module name l =>
      by_cases hs : starts_with target name = true
      · left
        refine ⟨.Module name l, List.mem_cons_self _ _, ?_⟩
        simpa [AppLogger.enabledGo, hs, ruleLevel] using h
      · have hs' : starts_with target name = false := by simpa using hs
        have h' : AppLogger.enabledGo target level rest acc = true := by
          simpa [AppLogger.enabledGo, hs'] using h
        rcases ih acc h' with ⟨r, hr, hle⟩ | hd
        · exact Or.inl ⟨r, List.mem_cons_of_mem _ hr, hle⟩
        · exact Or.inr hd
    | Default l =>
      cases acc with
      | none =>
        have h' : AppLogger.enabledGo target level rest (some l) = true := by
          simpa [AppLogger.enabledGo] using h
        rcases ih _ h' with ⟨r, hr, hle⟩ | ⟨d, hd, hle⟩
        · exact Or.inl ⟨r, List.mem_cons_of_mem _ hr, hle⟩
        · left
          refine ⟨.Default l, List.mem_cons_self _ _, ?_⟩
          have : l = d := by injection hd
          rw [show ruleLevel (.Default l) = l from rfl, this]
          exact hle
      | some d₀ =>
        have h' : AppLogger.enabledGo target level rest (some d₀) = true := by
          simpa [AppLogger.enabledGo] using h
        rcases ih _ h' with ⟨r, hr, hle⟩ | ⟨d, hd, hle⟩
        · exact Or.inl ⟨r, List.mem_cons_of_mem _ hr, hle⟩
        · exact Or.inr ⟨d, hd, hle⟩

/-! Claim theorems. -/

/-- C1: `enabled` scans the rules in list order; the first Module rule whose
prefix is a prefix of the target decides immediately (`level <= max-level`,
ignoring all later rules); a Default rule is remembered as fallback only if
no default was remembered yet; if no Module rule matches, the remembered
default (if any) decides, otherwise the result is `false`. Stated as
equality with the specification-side scan `specEnabled`. -/
theorem c1_enabled_matches_spec_scan (rules : List LoggerModuleFilterKey)
    (target : String) (level : Level) :
    AppLogger.enabled rules target level = specEnabled rules target level := by
  show AppLogger.enabledGo target level rules none = _
  rw [enabledGo_eq]
  rfl

/-- C4: `most_verbose_level` is total, returns `Off` on the empty rule set,
and on any rule set returns an upper bound of every rule's max-level that is
itself the max-level of some rule whenever the set is non-empty. -/
theorem c4_most_verbose_level_is_max :
    most_verbose_level [] = .Off ∧
    ∀ rules : List LoggerModuleFilterKey,
      (∀ r ∈ rules, (ruleLevel r).le (most_verbose_level rules) = true) ∧
      (rules ≠ [] → ∃ r ∈ rules, most_verbose_level rules = ruleLevel r) := by
  refine ⟨rfl, fun rules =>
    ⟨fun r hr => (le_iff _ _).2 (mvlGo_mem_le rules .Off r hr), fun hne => ?_⟩⟩
  rcases mvlGo_cases rules .Off with h | h
  · match rules, hne with
    | k :: rest, _ =>
      refine ⟨k, List.mem_cons_self _ _, ?_⟩
      have hk := mvlGo_mem_le (k :: rest) .Off k (List.mem_cons_self _ _)
      rw [h] at hk
      rw [show most_verbose_level (k :: rest) = mvlGo (k :: rest) .Off from rfl, h,
        rank_eq_zero (Nat.le_zero.1 hk)]
  · exact h

/-- Witness for C4 at the rule set `[Module "test1" Info, Default Error]`:
the returned level `Info` bounds the `Default Error` rule's level and is
attained by some rule of the set. -/
theorem c4_witness :
    ((ruleLevel (.Default .Error)).le
        (most_verbose_level [.Module "test1" .Info, .Default .Error]) = true) ∧
    ∃ r ∈ [LoggerModuleFilterKey.Module "test1" .Info, .Default .Error],
      most_verbose_level [.Module "test1" .Info, .Default .Error] = ruleLevel r :=
  ⟨(c4_most_verbose_level_is_max.2 _).1 (.Default .Error) (by decide),
   (c4_most_verbose_level_is_max.2 _).2 (by decide)⟩

/-- C5: gate consistency — whenever `enabled` accepts a record, the record's
level is at or below `most_verbose_level` of the same rule set, so the
process-wide threshold computed at registration never rejects a record some
rule would allow. -/
theorem c5_enabled_le_most_verbose (rules : List LoggerModuleFilterKey)
    (target : String) (level : Level)
    (h : AppLogger.enabled rules target level = true) :
    (level.to_level_filter).le (most_verbose_level rules) = true := by
  rcases enabledGo_true_exists target level rules none h with ⟨r, hr, hle⟩ | ⟨d, hd, _⟩
  · exact (le_iff _ _).2
      (Nat.le_trans ((le_iff _ _).1 hle) (mvlGo_mem_le rules .Off r hr))
  · simp at hd

/-- Witness for C5: an `Info` record accepted through `[Default Trace]` is
at or below that rule set's most verbose level. -/
theorem c5_witness :
    (Level.Info.to_level_filter).le (most_verbose_level [.Default .Trace]) = true :=
  c5_enabled_le_most_verbose [.Default .Trace] "app" .Info (by decide)

/-- C7: the severity mapping is total over the five levels and equals the
fixed table Trace, Debug to 7, Info to 6, Warn to 4, Error to 3; the codes
0, 1, 2 and 5 are never produced. -/
theorem c7_severity_table :
    AppLogger.level_to_severity_rfc5424 .Trace = 7 ∧
    AppLogger.level_to_severity_rfc5424 .Debug = 7 ∧
    AppLogger.level_to_severity_rfc5424 .Info = 6 ∧
    AppLogger.level_to_severity_rfc5424 .Warn = 4 ∧
    AppLogger.level_to_severity_rfc5424 .Error = 3 ∧
    ∀ level : Level,
      AppLogger.level_to_severity_rfc5424 level ≠ 0 ∧
      AppLogger.level_to_severity_rfc5424 level ≠ 1 ∧
      AppLogger.level_to_severity_rfc5424 level ≠ 2 ∧
      AppLogger.level_to_severity_rfc5424 level ≠ 5 := by
  refine ⟨rfl, rfl, rfl, rfl, rfl, fun level => ?_⟩
  cases level <;> simp [AppLogger.level_to_severity_rfc5424]

/-- C8: module-rule matching is pure string-prefix matching on the target
with no word-boundary check; in particular the prefix `"test1"` matches the
targets `"test1"`, `"test1::child"` and `"test12"`. -/
theorem c8_module_match_is_prefix_match :
    (∀ (name : String) (l : LevelFilter) (target : String) (level : Level),
      AppLogger.enabled [.Module name l] target level =
        (starts_with target name && (level.to_level_filter).le l)) ∧
    starts_with "test1" "test1" = true ∧
    starts_with "test1::child" "test1" = true ∧
    starts_with "test12" "test1" = true := by
  refine ⟨fun name l target level => ?_, by decide, by decide, by decide⟩
  by_cases hs : starts_with target name = true
  · simp [AppLogger.enabled, AppLogger.enabledGo, hs]
  · have hs' : starts_with target name = false := by simpa using hs
    simp [AppLogger.enabled, AppLogger.enabledGo, hs']

/-- C9: once a Module rule matches the target, the decision is that rule's
`level <= max-level` alone — the rules after the first matching Module rule
(later Module rules for the same prefix, or Default rules anywhere) never
influence the result. -/
theorem c9_first_module_match_decides (rules₁ rules₂ : List LoggerModuleFilterKey)
    (name : String) (l : LevelFilter) (target : String) (level : Level)
    (hs : starts_with target name = true)
    (hnone : ∀ r ∈ rules₁, matchesModule target r = false) :
    AppLogger.enabled (rules₁ ++ .Module name l :: rules₂) target level =
      (level.to_level_filter).le l :=
  enabledGo_first_module target level name l rules₂ hs rules₁ none hnone

/-- Witness for C9: with rules `[Default Error, Module "test1" Error,
Module "test1" Trace, Default Trace]`, the decision for `("test1", Trace)`
is taken by the first `Module "test1"` rule alone. -/
theorem c9_witness :
    AppLogger.enabled
      [.Default .Error, .Module "test1" .Error, .Module "test1" .Trace, .Default .Trace]
      "test1" .Trace = false :=
  c9_first_module_match_decides [.Default .Error]
    [.Module "test1" .Trace, .Default .Trace] "test1" .Error "test1" .Trace
    (by decide) (by decide)

/-- C10: nothing enforces a non-empty module prefix, and a Module rule with
the empty prefix matches every target, so when it is the first rule,
`enabled` is `level <= max-level` of that rule for every target and level,
and every later rule is unreachable. -/
theorem c10_empty_prefix_matches_everything (l : LevelFilter)
    (rest : List LoggerModuleFilterKey) (target : String) (level : Level) :
    AppLogger.enabled (.Module "" l :: rest) target level =
      (level.to_level_filter).le l := by
  simp [AppLogger.enabled, AppLogger.enabledGo, starts_with_empty]

/-- C6: `log` emits exactly one stdout line of the fixed form
`<{severity-code}>{target}: {message}` (severity code per the fixed table)
when the record is enabled, and emits nothing when it is not. -/
theorem c6_log_output (rules : List LoggerModuleFilterKey) (record : Record) :
    (AppLogger.enabled rules record.target record.level = true →
      AppLogger.log rules record =
        ["<" ++
            Nat.repr (match record.level with
              | .Error => 3
              | .Warn => 4
              | .Info => 6
              | .Debug => 7
              | .Trace => 7) ++
          ">" ++ record.target ++ ": " ++ record.args]) ∧
    (AppLogger.enabled rules record.target record.level = false →
      AppLogger.log rules record = []) := by
  obtain ⟨target, level, args⟩ := record
  constructor
  · intro h
    cases level <;> simp [AppLogger.log, AppLogger.level_to_severity_rfc5424, h] at h ⊢
  · intro h
    simp [AppLogger.log, h]

/-- Witness for C6: a record accepted at level `Error` yields exactly the
line `<3>app: hello`; a record rejected by the empty rule set yields no
output. -/
theorem c6_witness :
    AppLogger.log [.Default .Trace] ⟨"app", .Error, "hello"⟩ = ["<3>app: hello"] ∧
    AppLogger.log [] ⟨"app", .Error, "hello"⟩ = [] :=
  ⟨(c6_log_output [.Default .Trace] ⟨"app", .Error, "hello"⟩).1 (by decide),
   (c6_log_output [] ⟨"app", .Error, "hello"⟩).2 (by decide)⟩

/-- C2 counterexample: after a successful `init [Default Trace]`, a second
`init []` fails and keeps the first rule set, yet the process-wide max
level has been overwritten by the second call (it is
`most_verbose_level [] = Off`, no longer the first rule set's `Trace`) —
refuting the claim that a failing `init` leaves the threshold equal to the
first rule set's loosest level. -/
theorem c2_counterexample :
    (init [] (init [.Default .Trace] ⟨.Off, none⟩).2).1 = Except.error ⟨⟩ ∧
    (init [] (init [.Default .Trace] ⟨.Off, none⟩).2).2.app_logger =
      some [.Default .Trace] ∧
    (init [] (init [.Default .Trace] ⟨.Off, none⟩).2).2.max_level ≠
      most_verbose_level [.Default .Trace] :=
  ⟨rfl, rfl, by decide⟩

/-- C2 (amended): when a second `init` fails with the already-initialized
error, the installed rule set is preserved, but the process-wide maximum
severity threshold is not: `set_max_level` runs before the failing
`set_logger`, so the threshold equals the loosest level of the *second*
call's rules. -/
theorem c2_second_init_keeps_logger_overwrites_threshold
    (rules₁ rules₂ : List LoggerModuleFilterKey) (s₀ : LogState)
    (h : s₀.app_logger = none) :
    (init rules₁ s₀).1 = .ok () ∧
    (init rules₂ (init rules₁ s₀).2).1 = .error ⟨⟩ ∧
    (init rules₂ (init rules₁ s₀).2).2.app_logger = some rules₁ ∧
    (init rules₂ (init rules₁ s₀).2).2.max_level = most_verbose_level rules₂ := by
  obtain ⟨ml, al⟩ := s₀
  have h' : al = none := h
  subst h'
  exact ⟨rfl, rfl, rfl, rfl⟩

/-- Witness for the amended C2 at `rules₁ = [Default Trace]`, `rules₂ = []`
from the fresh state. -/
theorem c2_amended_witness :
    (init [.Default .Trace] ⟨.Off, none⟩).1 = .ok () ∧
    (init [] (init [.Default .Trace] ⟨.Off, none⟩).2).1 = .error ⟨⟩ ∧
    (init [] (init [.Default .Trace] ⟨.Off, none⟩).2).2.app_logger =
      some [.Default .Trace] ∧
    (init [] (init [.Default .Trace] ⟨.Off, none⟩).2).2.max_level =
      most_verbose_level [] :=
  c2_second_init_keeps_logger_overwrites_threshold [.Default .Trace] [] ⟨.Off, none⟩ rfl

/-- C3: when `init` is called twice in a process, the second call returns
the already-initialized error, and the rule set active afterwards — the one
`enabled` and `log` consult — is exactly the first call's list, in order. -/
theorem c3_second_init_fails_first_rules_active
    (rules₁ rules₂ : List LoggerModuleFilterKey) (s₀ : LogState)
    (h : s₀.app_logger = none) :
    (init rules₁ s₀).1 = .ok () ∧
    (init rules₂ (init rules₁ s₀).2).1 = .error ⟨⟩ ∧
    (init rules₂ (init rules₁ s₀).2).2.app_logger = some rules₁ := by
  obtain ⟨ml, al⟩ := s₀
  have h' : al = none := h
  subst h'
  exact ⟨rfl, rfl, rfl⟩

/-- Witness for C3 with first rules `[Module "test1" Info]` and second
rules `[Default Warn]` from the fresh state. -/
theorem c3_witness :
    (init [.Module "test1" .Info] ⟨.Off, none⟩).1 = .ok () ∧
    (init [.Default .Warn] (init [.Module "test1" .Info] ⟨.Off, none⟩).2).1 =
      .error ⟨⟩ ∧
    (init [.Default .Warn] (init [.Module "test1" .Info] ⟨.Off, none⟩).2).2.app_logger =
      some [.Module "test1" .Info] :=
  c3_second_init_fails_first_rules_active [.Module "test1" .Info] [.Default .Warn]
    ⟨.Off, none⟩ rfl

end SystemdStdioLogger
